import Mathlib

/-!
Shallow embedding of `crates/uv/src/commands/tool/install.rs` (`uv tool install`).

The single source function `install` drives tool installation: resolve the
`--from` and `--with` requirements, decide reuse / update / create for the
tool's environment, discover entry points, reconcile them against the
executable directory, publish them, and finally persist the tool receipt.

External collaborators (interpreter discovery, requirement resolution,
environment create/sync/update, site-package queries, entry-point metadata)
are modelled as oracles in a `Collab` record.  On-disk state (receipts,
environments, files in the executable directory) is an explicit `World`.
Every filesystem mutation is additionally recorded in an ordered `Effect`
trace so that "X happens before Y" properties of the source can be stated.
-/

namespace UvTool

/-- A filesystem path, as its list of components. -/
abbrev Path := List String

/-- `Path::file_name()`: the final component of a path, if any. -/
def Path.fileName (p : Path) : Option String := p.getLast?

/-- A Python interpreter, identified abstractly. -/
abbrev Interp := String

/-- An environment as the orchestrator sees it: its bound interpreter. -/
structure Env where
  interpreter : Interp
deriving DecidableEq, Repr

/-- A resolved requirement (`pypi_types::Requirement`): its package name plus
the rest of the specification (version constraints, source, ...). -/
structure Requirement where
  name : String
  spec : String
deriving DecidableEq, Repr

/-- An installed distribution found in site-packages. -/
structure Dist where
  name : String
  version : String
deriving DecidableEq, Repr

/-- `uv_tool::ToolEntrypoint`: the name and installed path of one entry point. -/
structure ToolEntrypoint where
  name : String
  installPath : Path
deriving DecidableEq, Repr

/-- `uv_tool::Tool`, the persisted receipt: requirements, the requested
Python, and the installed entry points. -/
structure Tool where
  requirements : List Requirement
  python : Option String
  entrypoints : List ToolEntrypoint
deriving DecidableEq, Repr

/-- The receipt requirements, converted back to resolver requirements
(`receipt.requirements().iter().cloned().map(Requirement::from)`); the
pep508 round-trip is modelled as the identity. -/
def receiptRequirements (t : Tool) : List Requirement := t.requirements

/-- Arguments of `install`: positional package, `--from`, `--python`,
`--with`, `--force`, and the reinstall/upgrade entries of the resolver
settings (only their presence matters to the orchestrator). -/
structure Args where
  package : String
  fromSpec : Option String
  python : Option String
  withSpecs : List String
  force : Bool
  reinstall : Option Unit
  upgrade : Option Unit

/-- On-disk state: tool receipts and tool environments keyed by tool name,
plus the set of files present in the executable directory. -/
structure World where
  receipts : String → Option Tool
  environments : String → Option Env
  files : List Path

/-- Point-update of the environment store (create / remove an environment). -/
def World.setEnv (w : World) (n : String) (e : Option Env) : World :=
  { w with environments := fun m => if m = n then e else w.environments m }

/-- Point-update of the receipt store (`add_tool_receipt` replaces wholesale). -/
def World.setReceipt (w : World) (n : String) (t : Option Tool) : World :=
  { w with receipts := fun m => if m = n then t else w.receipts m }

/-- Error taxonomy: one constructor per distinct `bail!` / `?` exit of the
source function. -/
inductive Err where
  | interpreterNotFound
  | fromParseConflict
  | resolveFailed
  | nameConflict
  | updateFailed
  | resolutionFailed
  | createFailed
  | syncFailed
  | noDistInstalled
  | execDirFailed
  | createDirFailed
  | entrypointDiscoveryFailed
  | noEntryPoints (tool : String)
  | removeEnvFailed
  | removeFileFailed
  | entryPointConflict (names : List String)
  | installFailed
  | initFailed
  | addReceiptFailed
deriving DecidableEq, Repr

/-- `ExitStatus` of the CLI. -/
inductive ExitStatus where
  | success
  | failure
  | error
deriving DecidableEq, Repr

/-- Observable effects, in execution order. -/
inductive Effect where
  | updateEnvE (tool : String)
  | createEnvE (tool : String)
  | syncEnvE (tool : String)
  | removeEnvE (tool : String)
  | createDirE (dir : Path)
  | discoverE (tool : String)
  | removeFileE (p : Path)
  | installE (source target : Path)
  | reportE (names : List String)
  | writeReceiptE (tool : String) (t : Tool)
deriving DecidableEq, Repr

/-- External collaborators and fallible filesystem primitives.  `Except Unit`
results model `?`-propagated collaborator failures; `Bool` fields model
success of individual filesystem calls. -/
structure Collab where
  findInterpreter : Except Unit Interp
  parsePackageName : String → Option String
  resolveReq : Interp → String → Except Unit Requirement
  pythonSatisfied : String → Env → Bool
  updateEnv : Env → List Requirement → Except Unit Env
  resolveEnvironment : Interp → List Requirement → Except Unit (List Requirement)
  createEnv : String → Interp → Except Unit Env
  syncEnv : Env → List Requirement → Except Unit Env
  getPackages : Env → String → List Dist
  entrypointPaths : Env → String → String → Except Unit (List (String × Path))
  execDir : Except Unit Path
  createDirOk : Bool
  removeEnvOk : String → Bool
  removeFileOk : Path → Bool
  installEpOk : Path → Path → Bool
  initOk : Bool
  addReceiptOk : Bool

/-- Overall outcome of a call: the returned `Result<ExitStatus>`, the final
on-disk state, and the ordered effect trace. -/
structure InstallResult where
  result : Except Err ExitStatus
  world : World
  trace : List Effect

/-- An entry point candidate: `(name, source_path, target_path)`. -/
abbrev EP := String × Path × Path

/-- Strict lexicographic order on `(name, source_path, target_path)`,
matching the derived `Ord` used by the source's `BTreeSet`. -/
def epLt (x y : EP) : Prop :=
  x.1 < y.1 ∨ (x.1 = y.1 ∧ (x.2.1 < y.2.1 ∨ (x.2.1 = y.2.1 ∧ x.2.2 < y.2.2)))

instance : DecidableRel epLt := fun x y => by
  unfold epLt
  infer_instance

/-- Ordered, deduplicating insertion — one `BTreeSet::insert`. -/
def insertDedup (x : EP) : List EP → List EP
  | [] => [x]
  | y :: ys =>
    if epLt x y then x :: y :: ys
    else if x = y then y :: ys
    else y :: insertDedup x ys

/-- `collect::<BTreeSet<_>>()`: fold the candidates into a sorted
duplicate-free list. -/
def btreeOfList (l : List EP) : List EP :=
  l.foldl (fun acc x => insertDedup x acc) []

/-- One candidate: keep the name and source path and derive
`target_path = executable_directory.join(source_path.file_name().unwrap_or(name))`. -/
def mkTargetEntry (dir : Path) (e : String × Path) : EP :=
  (e.1, e.2, dir ++ [(Path.fileName e.2).getD e.1])

/-- The `target_entry_points` set: candidates mapped to their targets,
collected into the sorted set. -/
def targetEntryPoints (dir : Path) (eps : List (String × Path)) : List EP :=
  btreeOfList (eps.map (mkTargetEntry dir))

/-- The removal loop over the already-existing entry points
(`fs_err::remove_file(target)?` for each). -/
def removeFiles (c : Collab) (w : World) : List EP → Except Err Unit × World × List Effect
  | [] => (.ok (), w, [])
  | (_, _, target) :: rest =>
    if c.removeFileOk target then
      let r := removeFiles c { w with files := w.files.filter (fun q => q ≠ target) } rest
      (r.1, r.2.1, .removeFileE target :: r.2.2)
    else (.error .removeFileFailed, w, [])

/-- The publish loop (`replace_symlink(source, target)?` for each target). -/
def installFiles (c : Collab) (w : World) : List EP → Except Err Unit × World × List Effect
  | [] => (.ok (), w, [])
  | (_, source, target) :: rest =>
    if c.installEpOk source target then
      let r := installFiles c { w with files := target :: w.files.filter (fun q => q ≠ target) } rest
      (r.1, r.2.1, .installE source target :: r.2.2)
    else (.error .installFailed, w, [])

/-- Resolve the `from` requirement: with `--from`, parse the positional
name, resolve the source spec, and require the resolved name to match;
without it, resolve the positional package itself. -/
def resolveFrom (a : Args) (c : Collab) (interpreter : Interp) : Except Err Requirement :=
  match a.fromSpec with
  | some f =>
    match c.parsePackageName a.package with
    | none => .error .fromParseConflict
    | some pkg =>
      match c.resolveReq interpreter f with
      | .error _ => .error .resolveFailed
      | .ok fromReq =>
        if fromReq.name = pkg then .ok fromReq else .error .nameConflict
  | none =>
    match c.resolveReq interpreter a.package with
    | .error _ => .error .resolveFailed
    | .ok r => .ok r

/-- Resolve the `--with` specifications, in order. -/
def resolveList (c : Collab) (interpreter : Interp) : List String → Except Err (List Requirement)
  | [] => .ok []
  | s :: rest =>
    match c.resolveReq interpreter s with
    | .error _ => .error .resolveFailed
    | .ok r =>
      match resolveList c interpreter rest with
      | .error e => .error e
      | .ok rs => .ok (r :: rs)

/-- The existing environment, filtered by the requested Python:
eligible only if no `--python` was given or the request is satisfied. -/
def findEligibleEnv (a : Args) (c : Collab) (w : World) (name : String) : Option Env :=
  (w.environments name).filter fun env =>
    match a.python with
    | none => true
    | some pr => c.pythonSatisfied pr env

/-- The short-circuit test: an eligible environment exists, a receipt
exists, its requirements equal the candidate set, and neither `--force`
nor a reinstall/upgrade policy is set. -/
def alreadyInstalled (a : Args) (requirements : List Requirement)
    (receipt : Option Tool) (env : Option Env) : Bool :=
  env.isSome &&
    match receipt with
    | some t =>
      decide (requirements = receiptRequirements t)
        && !a.force && a.reinstall.isNone && a.upgrade.isNone
    | none => false

/-- Build or reuse the environment: update-in-place when an eligible
environment exists; otherwise resolve fully first, then create and sync a
fresh environment. -/
def buildEnvironment (c : Collab) (interpreter : Interp) (w : World) (name : String)
    (requirements : List Requirement) (existingEnvironment : Option Env) :
    Except Err Env × World × List Effect :=
  match existingEnvironment with
  | some environment =>
    match c.updateEnv environment requirements with
    | .error _ => (.error .updateFailed, w, [])
    | .ok env => (.ok env, w.setEnv name (some env), [.updateEnvE name])
  | none =>
    match c.resolveEnvironment interpreter requirements with
    | .error _ => (.error .resolutionFailed, w, [])
    | .ok resolution =>
      match c.createEnv name interpreter with
      | .error _ => (.error .createFailed, w, [])
      | .ok environment =>
        match c.syncEnv environment resolution with
        | .error _ =>
          (.error .syncFailed, (w.setEnv name (some environment)), [.createEnvE name])
        | .ok env =>
          (.ok env, (w.setEnv name (some env)), [.createEnvE name, .syncEnvE name])

/-- The tool receipt assembled by `Tool::new` before `add_tool_receipt`. -/
def mkTool (a : Args) (requirements : List Requirement) (teps : List EP) : Tool :=
  { requirements := requirements
    python := a.python
    entrypoints := teps.map fun e => { name := e.1, installPath := e.2.2 } }

/-- Publish each entry point in order, report the installed names, and
persist the receipt only after every entry point is in place. -/
def publishPhase (a : Args) (c : Collab) (fromReq : Requirement)
    (requirements : List Requirement) (teps : List EP)
    (w : World) (tr : List Effect) : InstallResult :=
  match installFiles c w teps with
  | (.error e, w1, tr1) => ⟨.error e, w1, tr ++ tr1⟩
  | (.ok _, w1, tr1) =>
    let tr2 := tr ++ tr1 ++ [.reportE (teps.map fun e => e.1)]
    if c.initOk = false then ⟨.error .initFailed, w1, tr2⟩
    else
      let tool := mkTool a requirements teps
      if c.addReceiptOk = false then ⟨.error .addReceiptFailed, w1, tr2⟩
      else ⟨.ok .success, w1.setReceipt fromReq.name (some tool), tr2 ++ [.writeReceiptE fromReq.name tool]⟩

/-- From the synced environment onwards: site-package check, executable
directory, entry-point discovery, the empty and conflict checks with their
environment cleanup, then publishing. -/
def installPhase2 (a : Args) (c : Collab) (fromReq : Requirement)
    (requirements : List Requirement) (reinstallEntryPoints : Bool)
    (w : World) (tr : List Effect) (environment : Env) : InstallResult :=
  match (c.getPackages environment fromReq.name).head? with
  | none => ⟨.error .noDistInstalled, w, tr⟩
  | some installedDist =>
    match c.execDir with
    | .error _ => ⟨.error .execDirFailed, w, tr⟩
    | .ok executableDirectory =>
      if c.createDirOk = false then ⟨.error .createDirFailed, w, tr⟩
      else
        let tr1 := tr ++ [.createDirE executableDirectory, .discoverE fromReq.name]
        match c.entrypointPaths environment installedDist.name installedDist.version with
        | .error _ => ⟨.error .entrypointDiscoveryFailed, w, tr1⟩
        | .ok entryPoints =>
          let teps := targetEntryPoints executableDirectory entryPoints
          if teps.isEmpty then
            if c.removeEnvOk fromReq.name then
              ⟨.error (.noEntryPoints fromReq.name), w.setEnv fromReq.name none,
               tr1 ++ [.removeEnvE fromReq.name]⟩
            else ⟨.error .removeEnvFailed, w, tr1⟩
          else
            let existingEps := teps.filter fun e => decide (e.2.2 ∈ w.files)
            if a.force || reinstallEntryPoints then
              match removeFiles c w existingEps with
              | (.error e, w2, tr2) => ⟨.error e, w2, tr1 ++ tr2⟩
              | (.ok _, w2, tr2) => publishPhase a c fromReq requirements teps w2 (tr1 ++ tr2)
            else
              if existingEps.isEmpty then publishPhase a c fromReq requirements teps w tr1
              else
                if c.removeEnvOk fromReq.name then
                  ⟨.error (.entryPointConflict
                      (existingEps.map fun e => (Path.fileName e.2.2).getD "")),
                   w.setEnv fromReq.name none, tr1 ++ [.removeEnvE fromReq.name]⟩
                else ⟨.error .removeEnvFailed, w, tr1⟩

/-- After requirement resolution: receipt and environment lookup, the
already-installed short-circuit, environment build, then phase 2. -/
def installWithReqs (a : Args) (c : Collab) (interpreter : Interp) (w : World)
    (fromReq : Requirement) (requirements : List Requirement) : InstallResult :=
  let existingToolReceipt := w.receipts fromReq.name
  let existingEnvironment := findEligibleEnv a c w fromReq.name
  if alreadyInstalled a requirements existingToolReceipt existingEnvironment then
    ⟨.ok .failure, w, []⟩
  else
    let reinstallEntryPoints := existingToolReceipt.isSome
    match buildEnvironment c interpreter w fromReq.name requirements existingEnvironment with
    | (.error e, w1, tr1) => ⟨.error e, w1, tr1⟩
    | (.ok env, w1, tr1) =>
      installPhase2 a c fromReq requirements reinstallEntryPoints w1 tr1 env

/-- The embedded `install` entry point. -/
def install (a : Args) (c : Collab) (w : World) : InstallResult :=
  match c.findInterpreter with
  | .error _ => ⟨.error .interpreterNotFound, w, []⟩
  | .ok interpreter =>
    match resolveFrom a c interpreter with
    | .error e => ⟨.error e, w, []⟩
    | .ok fromReq =>
      match resolveList c interpreter a.withSpecs with
      | .error e => ⟨.error e, w, []⟩
      | .ok withReqs =>
        installWithReqs a c interpreter w fromReq (fromReq :: withReqs)

/-! ### Concrete scenarios used to exercise the model -/

/-- `uv tool install black`. -/
def exArgs : Args := ⟨"black", none, none, [], false, none, none⟩

/-- `uv tool install black --from black-src`. -/
def exArgsFrom : Args := ⟨"black", some "black-src", none, [], false, none, none⟩

/-- Oracles for a fully successful install of `black`. -/
def exCollab : Collab :=
  ⟨.ok "py", fun s => some s, fun _ s => .ok ⟨s, s⟩, fun _ _ => true,
   fun e _ => .ok e, fun _ r => .ok r, fun _ i => .ok ⟨i⟩, fun e _ => .ok e,
   fun _ n => [⟨n, "1.0"⟩], fun _ _ _ => .ok [("black", ["env", "bin", "black"])],
   .ok ["bin"], true, fun _ => true, fun _ => true, fun _ _ => true, true, true⟩

/-- Same oracles, but entry-point discovery yields zero entry points. -/
def exCollabNoEps : Collab := { exCollab with entrypointPaths := fun _ _ _ => .ok [] }

/-- Same oracles, but every requirement resolves to package `other`. -/
def exCollabOther : Collab := { exCollab with resolveReq := fun _ s => .ok ⟨"other", s⟩ }

/-- Empty on-disk state. -/
def exWorld0 : World := ⟨fun _ => none, fun _ => none, []⟩

/-- A pre-existing environment for `black` with no receipt. -/
def exWorldPre : World :=
  ⟨fun _ => none, fun n => if n = "black" then some ⟨"py"⟩ else none, []⟩

/-- The receipt a successful `black` install writes. -/
def exTool : Tool := ⟨[⟨"black", "black"⟩], none, [⟨"black", ["bin", "black"]⟩]⟩

/-- Fully installed state for `black`: receipt, environment, published file. -/
def exWorldInstalled : World :=
  ⟨fun n => if n = "black" then some exTool else none,
   fun n => if n = "black" then some ⟨"py"⟩ else none, [["bin", "black"]]⟩

/-- A receipt recording an extra auxiliary requirement `plug`. -/
def exToolOld : Tool :=
  ⟨[⟨"black", "black"⟩, ⟨"plug", "plug"⟩], none, [⟨"black", ["bin", "black"]⟩]⟩

/-- Installed state for `black` whose receipt lists a different auxiliary set. -/
def exWorldOld : World :=
  ⟨fun n => if n = "black" then some exToolOld else none,
   fun n => if n = "black" then some ⟨"py"⟩ else none, [["bin", "black"]]⟩

/-- No receipt and no environment, but a foreign `bin/black` file exists. -/
def exWorldConflict : World := ⟨fun _ => none, fun _ => none, [["bin", "black"]]⟩

/-- Same oracles, but requirement resolution of the candidate set fails. -/
def exCollabResFail : Collab := { exCollab with resolveEnvironment := fun _ _ => .error () }

/-- Same oracles, but the synced environment contains no packages. -/
def exCollabNoDist : Collab := { exCollab with getPackages := fun _ _ => [] }

/-! ### The entry-point order is a strict total order -/

theorem epLt_irrefl (x : EP) : ¬ epLt x x := by
  unfold epLt
  simp [lt_irrefl]

theorem epLt_trans {x y z : EP} (h1 : epLt x y) (h2 : epLt y z) : epLt x z := by
  unfold epLt at h1 h2 ⊢
  rcases h1 with h1 | ⟨e1, h1⟩ <;> rcases h2 with h2 | ⟨e2, h2⟩
  · exact Or.inl (lt_trans h1 h2)
  · exact Or.inl (by rw [← e2]; exact h1)
  · exact Or.inl (by rw [e1]; exact h2)
  · refine Or.inr ⟨e1.trans e2, ?_⟩
    rcases h1 with h1 | ⟨f1, g1⟩ <;> rcases h2 with h2 | ⟨f2, g2⟩
    · exact Or.inl (lt_trans h1 h2)
    · exact Or.inl (by rw [← f2]; exact h1)
    · exact Or.inl (by rw [f1]; exact h2)
    · exact Or.inr ⟨f1.trans f2, lt_trans g1 g2⟩

theorem epLt_trichotomy (x y : EP) : epLt x y ∨ x = y ∨ epLt y x := by
  obtain ⟨x1, x2, x3⟩ := x
  obtain ⟨y1, y2, y3⟩ := y
  simp only [epLt]
  rcases lt_trichotomy x1 y1 with h | h | h
  · exact Or.inl (Or.inl h)
  · subst h
    rcases lt_trichotomy x2 y2 with h2 | h2 | h2
    · exact Or.inl (Or.inr ⟨rfl, Or.inl h2⟩)
    · subst h2
      rcases lt_trichotomy x3 y3 with h3 | h3 | h3
      · exact Or.inl (Or.inr ⟨rfl, Or.inr ⟨rfl, h3⟩⟩)
      · subst h3
        exact Or.inr (Or.inl rfl)
      · exact Or.inr (Or.inr (Or.inr ⟨rfl, Or.inr ⟨rfl, h3⟩⟩))
    · exact Or.inr (Or.inr (Or.inr ⟨rfl, Or.inl h2⟩))
  · exact Or.inr (Or.inr (Or.inl h))

theorem epLt_ne {x y : EP} (h : epLt x y) : x ≠ y :=
  fun e => epLt_irrefl y (e ▸ h)

/-! ### Sortedness, dedup and membership of the `BTreeSet` model -/

theorem mem_insertDedup {x a : EP} {l : List EP} :
    a ∈ insertDedup x l ↔ a = x ∨ a ∈ l := by
  induction l with
  | nil => simp [insertDedup]
  | cons y ys ih =>
    unfold insertDedup
    split
    · simp [List.mem_cons]
    · split
      · rename_i heq
        subst heq
        simp [List.mem_cons]
      · simp [List.mem_cons, ih]
        tauto

theorem sorted_insertDedup {x : EP} {l : List EP} (h : l.Sorted epLt) :
    (insertDedup x l).Sorted epLt := by
  induction l with
  | nil => simp [insertDedup]
  | cons y ys ih =>
    rw [List.sorted_cons] at h
    obtain ⟨hy, hys⟩ := h
    unfold insertDedup
    split
    · rename_i hxy
      rw [List.sorted_cons]
      refine ⟨?_, ?_⟩
      · intro b hb
        rcases List.mem_cons.mp hb with rfl | hb'
        · exact hxy
        · exact epLt_trans hxy (hy b hb')
      · rw [List.sorted_cons]
        exact ⟨hy, hys⟩
    · split
      · rw [List.sorted_cons]
        exact ⟨hy, hys⟩
      · rename_i hnlt hne
        rw [List.sorted_cons]
        refine ⟨?_, ih hys⟩
        intro b hb
        rcases mem_insertDedup.mp hb with rfl | hb'
        · rcases epLt_trichotomy b y with h1 | h2 | h3
          · exact absurd h1 hnlt
          · exact absurd h2 hne
          · exact h3
        · exact hy b hb'

theorem sorted_foldl_insertDedup (l acc : List EP) (h : acc.Sorted epLt) :
    (l.foldl (fun acc x => insertDedup x acc) acc).Sorted epLt := by
  induction l generalizing acc with
  | nil => simpa
  | cons x xs ih => exact ih _ (sorted_insertDedup h)

theorem mem_foldl_insertDedup (l acc : List EP) (a : EP) :
    a ∈ l.foldl (fun acc x => insertDedup x acc) acc ↔ a ∈ acc ∨ a ∈ l := by
  induction l generalizing acc with
  | nil => simp
  | cons x xs ih =>
    rw [List.foldl_cons, ih]
    simp [mem_insertDedup]
    tauto

theorem sorted_btreeOfList (l : List EP) : (btreeOfList l).Sorted epLt :=
  sorted_foldl_insertDedup l [] (by simp)

theorem mem_btreeOfList {l : List EP} {a : EP} : a ∈ btreeOfList l ↔ a ∈ l := by
  unfold btreeOfList
  rw [mem_foldl_insertDedup]
  simp

theorem nodup_of_sorted_epLt {l : List EP} (h : l.Sorted epLt) : l.Nodup :=
  List.Pairwise.imp (fun hlt => epLt_ne hlt) h

theorem sorted_targetEntryPoints (dir : Path) (eps : List (String × Path)) :
    (targetEntryPoints dir eps).Sorted epLt :=
  sorted_btreeOfList _

theorem mem_targetEntryPoints {dir : Path} {eps : List (String × Path)} {a : EP} :
    a ∈ targetEntryPoints dir eps ↔ a ∈ eps.map (mkTargetEntry dir) :=
  mem_btreeOfList

/-! ### Behaviour of the removal and publish loops -/

theorem removeFiles_err {c : Collab} {w : World} {l : List EP} {e : Err}
    (h : (removeFiles c w l).1 = .error e) : e = .removeFileFailed := by
  induction l generalizing w with
  | nil => simp [removeFiles] at h
  | cons x xs ih =>
    obtain ⟨n, s, t⟩ := x
    unfold removeFiles at h
    split at h
    · exact ih h
    · simp at h
      exact h.symm

theorem removeFiles_trace {c : Collab} {w : World} {l : List EP} {ef : Effect}
    (h : ef ∈ (removeFiles c w l).2.2) : ∃ p, ef = .removeFileE p := by
  induction l generalizing w with
  | nil => simp [removeFiles] at h
  | cons x xs ih =>
    obtain ⟨n, s, t⟩ := x
    unfold removeFiles at h
    split at h
    · rcases List.mem_cons.mp h with rfl | h'
      · exact ⟨t, rfl⟩
      · exact ih h'
    · simp at h

theorem removeFiles_world {c : Collab} {w : World} {l : List EP} :
    (removeFiles c w l).2.1.receipts = w.receipts ∧
    (removeFiles c w l).2.1.environments = w.environments ∧
    ∀ p, p ∈ (removeFiles c w l).2.1.files → p ∈ w.files := by
  induction l generalizing w with
  | nil => simp [removeFiles]
  | cons x xs ih =>
    obtain ⟨n, s, t⟩ := x
    unfold removeFiles
    split
    · refine ⟨(ih).1, (ih).2.1, ?_⟩
      intro p hp
      have := (ih (w := { w with files := w.files.filter (fun q => q ≠ t) })).2.2 p hp
      exact (List.mem_filter.mp this).1
    · exact ⟨rfl, rfl, fun p hp => hp⟩

theorem removeFiles_ok {c : Collab} {w : World} {l : List EP}
    (h : ∀ e ∈ l, c.removeFileOk e.2.2 = true) :
    (removeFiles c w l).1 = .ok () ∧
    (removeFiles c w l).2.2 = l.map (fun e => .removeFileE e.2.2) := by
  induction l generalizing w with
  | nil => simp [removeFiles]
  | cons x xs ih =>
    obtain ⟨n, s, t⟩ := x
    have ht : c.removeFileOk t = true := h (n, s, t) (List.mem_cons_self _ _)
    have hxs : ∀ e ∈ xs, c.removeFileOk e.2.2 = true :=
      fun e he => h e (List.mem_cons_of_mem _ he)
    unfold removeFiles
    rw [ht]
    simp only [if_true, reduceIte]
    refine ⟨(ih hxs).1, ?_⟩
    rw [(ih hxs).2]
    simp

theorem removeFiles_removed {c : Collab} {w : World} {l : List EP} {u : Unit}
    (h : (removeFiles c w l).1 = .ok u) :
    ∀ e ∈ l, e.2.2 ∉ (removeFiles c w l).2.1.files := by
  induction l generalizing w with
  | nil => simp
  | cons x xs ih =>
    obtain ⟨n, s, t⟩ := x
    unfold removeFiles at h ⊢
    split at h
    · rename_i hok
      rw [hok]
      simp only [reduceIte]
      intro e he
      rcases List.mem_cons.mp he with rfl | he'
      · simp only []
        intro hmem
        have hsub :=
          (removeFiles_world (c := c)
            (w := { w with files := w.files.filter (fun q => q ≠ t) }) (l := xs)).2.2 t hmem
        simp [List.mem_filter] at hsub
      · exact ih h e he'
    · simp at h

theorem installFiles_err {c : Collab} {w : World} {l : List EP} {e : Err}
    (h : (installFiles c w l).1 = .error e) : e = .installFailed := by
  induction l generalizing w with
  | nil => simp [installFiles] at h
  | cons x xs ih =>
    obtain ⟨n, s, t⟩ := x
    unfold installFiles at h
    split at h
    · exact ih h
    · simp at h
      exact h.symm

theorem installFiles_trace {c : Collab} {w : World} {l : List EP} {ef : Effect}
    (h : ef ∈ (installFiles c w l).2.2) : ∃ s t, ef = .installE s t := by
  induction l generalizing w with
  | nil => simp [installFiles] at h
  | cons x xs ih =>
    obtain ⟨n, s, t⟩ := x
    unfold installFiles at h
    split at h
    · rcases List.mem_cons.mp h with rfl | h'
      · exact ⟨s, t, rfl⟩
      · exact ih h'
    · simp at h

theorem installFiles_world {c : Collab} {w : World} {l : List EP} :
    (installFiles c w l).2.1.receipts = w.receipts ∧
    (installFiles c w l).2.1.environments = w.environments := by
  induction l generalizing w with
  | nil => simp [installFiles]
  | cons x xs ih =>
    obtain ⟨n, s, t⟩ := x
    unfold installFiles
    split
    · exact ⟨(ih).1, (ih).2⟩
    · exact ⟨rfl, rfl⟩

theorem installFiles_ok_trace {c : Collab} {w : World} {l : List EP} {u : Unit}
    (h : (installFiles c w l).1 = .ok u) :
    (installFiles c w l).2.2 = l.map (fun e => .installE e.2.1 e.2.2) := by
  induction l generalizing w with
  | nil => simp [installFiles]
  | cons x xs ih =>
    obtain ⟨n, s, t⟩ := x
    unfold installFiles at h ⊢
    split at h
    · rename_i hok
      rw [hok]
      simp only [if_true, reduceIte]
      rw [ih h]
      simp
    · simp at h

theorem installFiles_ok {c : Collab} {w : World} {l : List EP}
    (h : ∀ e ∈ l, c.installEpOk e.2.1 e.2.2 = true) :
    (installFiles c w l).1 = .ok () := by
  induction l generalizing w with
  | nil => simp [installFiles]
  | cons x xs ih =>
    obtain ⟨n, s, t⟩ := x
    have ht : c.installEpOk s t = true := h (n, s, t) (List.mem_cons_self _ _)
    have hxs : ∀ e ∈ xs, c.installEpOk e.2.1 e.2.2 = true :=
      fun e he => h e (List.mem_cons_of_mem _ he)
    unfold installFiles
    rw [ht]
    simp only [if_true, reduceIte]
    exact ih hxs

/-! ### Behaviour of the environment build step -/

theorem buildEnvironment_ok {c : Collab} {i : Interp} {w : World} {n : String}
    {reqs : List Requirement} {ee : Option Env} {env : Env} {w1 : World} {tr1 : List Effect}
    (h : buildEnvironment c i w n reqs ee = (.ok env, w1, tr1)) :
    w1.receipts = w.receipts ∧ w1.files = w.files ∧ w1.environments n = some env ∧
    ∀ ef ∈ tr1, ef = .updateEnvE n ∨ ef = .createEnvE n ∨ ef = .syncEnvE n := by
  unfold buildEnvironment at h
  split at h
  · split at h
    · simp at h
    · simp only [Prod.mk.injEq, Except.ok.injEq] at h
      obtain ⟨he, hw, ht⟩ := h
      subst he hw ht
      refine ⟨rfl, rfl, by simp [World.setEnv], by simp⟩
  · split at h
    · simp at h
    · split at h
      · simp at h
      · split at h
        · simp at h
        · simp only [Prod.mk.injEq, Except.ok.injEq] at h
          obtain ⟨he, hw, ht⟩ := h
          subst he hw ht
          refine ⟨rfl, rfl, by simp [World.setEnv], by simp⟩

theorem buildEnvironment_err {c : Collab} {i : Interp} {w : World} {n : String}
    {reqs : List Requirement} {ee : Option Env} {e : Err} {w1 : World} {tr1 : List Effect}
    (h : buildEnvironment c i w n reqs ee = (.error e, w1, tr1)) :
    (e = .updateFailed ∨ e = .resolutionFailed ∨ e = .createFailed ∨ e = .syncFailed) ∧
    w1.receipts = w.receipts ∧ w1.files = w.files ∧
    ∀ ef ∈ tr1, ef = .updateEnvE n ∨ ef = .createEnvE n ∨ ef = .syncEnvE n := by
  unfold buildEnvironment at h
  split at h
  · split at h
    · simp only [Prod.mk.injEq, Except.error.injEq] at h
      obtain ⟨he, hw, ht⟩ := h
      subst he hw ht
      exact ⟨Or.inl rfl, rfl, rfl, by simp⟩
    · simp at h
  · split at h
    · simp only [Prod.mk.injEq, Except.error.injEq] at h
      obtain ⟨he, hw, ht⟩ := h
      subst he hw ht
      exact ⟨Or.inr (Or.inl rfl), rfl, rfl, by simp⟩
    · split at h
      · simp only [Prod.mk.injEq, Except.error.injEq] at h
        obtain ⟨he, hw, ht⟩ := h
        subst he hw ht
        exact ⟨Or.inr (Or.inr (Or.inl rfl)), rfl, rfl, by simp⟩
      · split at h
        · simp only [Prod.mk.injEq, Except.error.injEq] at h
          obtain ⟨he, hw, ht⟩ := h
          subst he hw ht
          exact ⟨Or.inr (Or.inr (Or.inr rfl)), rfl, rfl, by simp [World.setEnv]⟩
        · simp at h

/-! ### Behaviour of the publish phase -/

theorem publishPhase_ok {a : Args} {c : Collab} {fr : Requirement} {reqs : List Requirement}
    {teps : List EP} {w : World} {tr : List Effect} {w1 : World} {tr1 : List Effect} {u : Unit}
    (hIF : installFiles c w teps = (.ok u, w1, tr1))
    (hInit : c.initOk = true) (hAdd : c.addReceiptOk = true) :
    publishPhase a c fr reqs teps w tr =
      ⟨.ok .success, w1.setReceipt fr.name (some (mkTool a reqs teps)),
       tr ++ tr1 ++ [.reportE (teps.map fun e => e.1)] ++
         [.writeReceiptE fr.name (mkTool a reqs teps)]⟩ := by
  unfold publishPhase
  rw [hIF]
  simp [hInit, hAdd]

theorem publishPhase_err {a : Args} {c : Collab} {fr : Requirement} {reqs : List Requirement}
    {teps : List EP} {w : World} {tr : List Effect} {e : Err}
    (h : (publishPhase a c fr reqs teps w tr).result = .error e) :
    e = .installFailed ∨ e = .initFailed ∨ e = .addReceiptFailed := by
  rcases hIF : installFiles c w teps with ⟨res, w1, tr1⟩
  simp only [publishPhase, hIF] at h
  cases res with
  | error e2 =>
    simp only [] at h
    have : (installFiles c w teps).1 = .error e2 := by rw [hIF]
    cases h
    exact Or.inl (installFiles_err this)
  | ok u =>
    by_cases hInit : c.initOk = false
    · simp [hInit] at h
      exact Or.inr (Or.inl h.symm)
    · by_cases hAdd : c.addReceiptOk = false
      · simp [hInit, hAdd] at h
        exact Or.inr (Or.inr h.symm)
      · simp [hInit, hAdd] at h

theorem publishPhase_env {a : Args} {c : Collab} {fr : Requirement} {reqs : List Requirement}
    {teps : List EP} {w : World} {tr : List Effect} :
    (publishPhase a c fr reqs teps w tr).world.environments = w.environments := by
  rcases hIF : installFiles c w teps with ⟨res, w1, tr1⟩
  have henv : w1.environments = w.environments := by
    have := (installFiles_world (c := c) (w := w) (l := teps)).2
    rw [hIF] at this
    exact this
  simp only [publishPhase, hIF]
  cases res with
  | error e2 => simpa using henv
  | ok u =>
    by_cases hInit : c.initOk = false
    · simpa [hInit] using henv
    · by_cases hAdd : c.addReceiptOk = false
      · simpa [hInit, hAdd] using henv
      · simpa [hInit, hAdd, World.setReceipt] using henv

theorem publishPhase_write {a : Args} {c : Collab} {fr : Requirement} {reqs : List Requirement}
    {teps : List EP} {w : World} {tr : List Effect} {n : String} {t : Tool}
    (h : .writeReceiptE n t ∈ (publishPhase a c fr reqs teps w tr).trace) :
    .writeReceiptE n t ∈ tr ∨
      (n = fr.name ∧ t = mkTool a reqs teps ∧ ∃ p,
        (publishPhase a c fr reqs teps w tr).trace = p ++ [.writeReceiptE n t] ∧
        ∀ ep ∈ t.entrypoints, ∃ src, Effect.installE src ep.installPath ∈ p) := by
  rcases hIF : installFiles c w teps with ⟨res, w1, tr1⟩
  have htr1 : ∀ ef ∈ tr1, ∃ s t2, ef = Effect.installE s t2 := by
    intro ef hef
    apply installFiles_trace (c := c) (w := w) (l := teps)
    rw [hIF]
    exact hef
  simp only [publishPhase, hIF] at h ⊢
  cases res with
  | error e2 =>
    simp only [] at h ⊢
    rcases List.mem_append.mp h with h' | h'
    · exact Or.inl h'
    · obtain ⟨s, t2, he⟩ := htr1 _ h'
      simp at he
  | ok u =>
    have htr1eq : tr1 = teps.map (fun e => Effect.installE e.2.1 e.2.2) := by
      have : (installFiles c w teps).1 = .ok u := by rw [hIF]
      have h2 := installFiles_ok_trace this
      rw [hIF] at h2
      exact h2
    by_cases hInit : c.initOk = false
    · simp only [hInit, if_true, reduceIte] at h ⊢
      rcases List.mem_append.mp h with h' | h'
      · rcases List.mem_append.mp h' with h'' | h''
        · exact Or.inl h''
        · obtain ⟨s, t2, he⟩ := htr1 _ h''
          simp at he
      · simp at h'
    · by_cases hAdd : c.addReceiptOk = false
      · simp only [hInit, hAdd, if_true, if_false, reduceIte] at h ⊢
        rcases List.mem_append.mp h with h' | h'
        · rcases List.mem_append.mp h' with h'' | h''
          · exact Or.inl h''
          · obtain ⟨s, t2, he⟩ := htr1 _ h''
            simp at he
        · simp at h'
      · simp only [hInit, hAdd, if_true, if_false, reduceIte] at h ⊢
        rcases List.mem_append.mp h with h' | h'
        · rcases List.mem_append.mp h' with h'' | h''
          · rcases List.mem_append.mp h'' with h3 | h3
            · exact Or.inl h3
            · obtain ⟨s, t2, he⟩ := htr1 _ h3
              simp at he
          · simp at h''
        · simp only [List.mem_singleton] at h'
          obtain ⟨hn, ht⟩ := Effect.writeReceiptE.inj h'
          refine Or.inr ⟨hn, ht, tr ++ tr1 ++ [.reportE (teps.map fun e => e.1)],
            by rw [hn, ht]; simp, ?_⟩
          intro ep hep
          rw [ht] at hep
          simp only [mkTool, List.mem_map] at hep
          obtain ⟨e, he, hepe⟩ := hep
          refine ⟨e.2.1, ?_⟩
          apply List.mem_append_left
          apply List.mem_append_right
          rw [htr1eq]
          rw [← hepe]
          simp only []
          exact List.mem_map_of_mem _ he

theorem publishPhase_trace_extends {a : Args} {c : Collab} {fr : Requirement}
    {reqs : List Requirement} {teps : List EP} {w : World} {tr : List Effect} :
    ∃ s, (publishPhase a c fr reqs teps w tr).trace = tr ++ s := by
  rcases hIF : installFiles c w teps with ⟨res, w1, tr1⟩
  simp only [publishPhase, hIF]
  cases res with
  | error e2 => exact ⟨tr1, rfl⟩
  | ok u =>
    by_cases hInit : c.initOk = false
    · simp only [hInit, if_true, reduceIte]
      exact ⟨tr1 ++ [.reportE (teps.map fun e => e.1)], by simp⟩
    · by_cases hAdd : c.addReceiptOk = false
      · simp only [hInit, hAdd, if_true, if_false, reduceIte]
        exact ⟨tr1 ++ [.reportE (teps.map fun e => e.1)], by simp⟩
      · simp only [hInit, hAdd, if_true, if_false, reduceIte]
        exact ⟨tr1 ++ [.reportE (teps.map fun e => e.1)] ++
          [.writeReceiptE fr.name (mkTool a reqs teps)], by simp⟩

/-! ### Behaviour of phase 2 (site-package check through publish) -/

theorem installPhase2_trace_extends {a : Args} {c : Collab} {fr : Requirement}
    {reqs : List Requirement} {rep : Bool} {w : World} {tr : List Effect} {env : Env} :
    ∃ s, (installPhase2 a c fr reqs rep w tr env).trace = tr ++ s := by
  simp only [installPhase2]
  repeat' split
  all_goals
    first
      | exact ⟨[], (List.append_nil tr).symm⟩
      | exact ⟨_, rfl⟩
      | exact ⟨_, List.append_assoc _ _ _⟩
      | (obtain ⟨s, hs⟩ := publishPhase_trace_extends
         exact ⟨_, hs.trans (by rw [List.append_assoc]; try rw [List.append_assoc])⟩)

theorem removeFiles_eq_err {c : Collab} {w : World} {l : List EP} {e : Err} {w2 : World}
    {tr2 : List Effect} (h : removeFiles c w l = (.error e, w2, tr2)) :
    e = .removeFileFailed := by
  have h1 := congrArg (fun r => r.1) h
  simp only [] at h1
  exact removeFiles_err h1

theorem removeFiles_eq_world {c : Collab} {w : World} {l : List EP}
    {res : Except Err Unit} {w2 : World} {tr2 : List Effect}
    (h : removeFiles c w l = (res, w2, tr2)) :
    w2.receipts = w.receipts ∧ w2.environments = w.environments := by
  have h1 := congrArg (fun r => r.2.1) h
  simp only [] at h1
  rw [← h1]
  exact ⟨(removeFiles_world).1, (removeFiles_world).2.1⟩

theorem removeFiles_eq_trace {c : Collab} {w : World} {l : List EP}
    {res : Except Err Unit} {w2 : World} {tr2 : List Effect}
    (h : removeFiles c w l = (res, w2, tr2)) :
    ∀ ef ∈ tr2, ∃ p, ef = Effect.removeFileE p := by
  have h1 := congrArg (fun r => r.2.2) h
  simp only [] at h1
  rw [← h1]
  intro ef hef
  exact removeFiles_trace hef

/-- Exhaustive case analysis of phase 2: every exit is one of the listed
shapes. -/
theorem installPhase2_spec (a : Args) (c : Collab) (fr : Requirement) (reqs : List Requirement)
    (rep : Bool) (w : World) (tr : List Effect) (env : Env) :
    (∃ e, installPhase2 a c fr reqs rep w tr env = ⟨.error e, w, tr⟩ ∧
      (e = .noDistInstalled ∨ e = .execDirFailed ∨ e = .createDirFailed)) ∨
    (∃ dir e, installPhase2 a c fr reqs rep w tr env =
        ⟨.error e, w, tr ++ [.createDirE dir, .discoverE fr.name]⟩ ∧
      (e = .entrypointDiscoveryFailed ∨ e = .removeEnvFailed)) ∨
    (∃ dir, installPhase2 a c fr reqs rep w tr env =
        ⟨.error (.noEntryPoints fr.name), w.setEnv fr.name none,
          tr ++ [.createDirE dir, .discoverE fr.name] ++ [.removeEnvE fr.name]⟩) ∨
    (∃ dir ns, installPhase2 a c fr reqs rep w tr env =
        ⟨.error (.entryPointConflict ns), w.setEnv fr.name none,
          tr ++ [.createDirE dir, .discoverE fr.name] ++ [.removeEnvE fr.name]⟩) ∨
    (∃ dir w2 tr2, installPhase2 a c fr reqs rep w tr env =
        ⟨.error .removeFileFailed, w2, tr ++ [.createDirE dir, .discoverE fr.name] ++ tr2⟩ ∧
      w2.receipts = w.receipts ∧ w2.environments = w.environments ∧
      (∀ ef ∈ tr2, ∃ p, ef = Effect.removeFileE p)) ∨
    (∃ dir eps w2 tr2, installPhase2 a c fr reqs rep w tr env =
        publishPhase a c fr reqs (targetEntryPoints dir eps) w2
          (tr ++ [.createDirE dir, .discoverE fr.name] ++ tr2) ∧
      w2.receipts = w.receipts ∧ w2.environments = w.environments ∧
      (∀ ef ∈ tr2, ∃ p, ef = Effect.removeFileE p)) := by
  simp only [installPhase2]
  split
  · exact Or.inl ⟨_, rfl, Or.inl rfl⟩
  split
  · exact Or.inl ⟨_, rfl, Or.inr (Or.inl rfl)⟩
  split
  · exact Or.inl ⟨_, rfl, Or.inr (Or.inr rfl)⟩
  split
  · exact Or.inr (Or.inl ⟨_, _, rfl, Or.inl rfl⟩)
  split
  · split
    · exact Or.inr (Or.inr (Or.inl ⟨_, rfl⟩))
    · exact Or.inr (Or.inl ⟨_, _, rfl, Or.inr rfl⟩)
  · split
    · split
      · rename_i heq
        have he := removeFiles_eq_err heq
        subst he
        refine Or.inr (Or.inr (Or.inr (Or.inr (Or.inl ⟨_, _, _, rfl, ?_, ?_⟩))))
        · exact (removeFiles_eq_world heq).1
        · exact ⟨(removeFiles_eq_world heq).2, removeFiles_eq_trace heq⟩
      · rename_i heq
        refine Or.inr (Or.inr (Or.inr (Or.inr (Or.inr ⟨_, _, _, _, rfl,
          (removeFiles_eq_world heq).1, (removeFiles_eq_world heq).2,
          removeFiles_eq_trace heq⟩))))
    · split
      · refine Or.inr (Or.inr (Or.inr (Or.inr (Or.inr ⟨_, _, w, [],
          by rw [List.append_nil], rfl, rfl, by simp⟩))))
      · split
        · exact Or.inr (Or.inr (Or.inr (Or.inl ⟨_, _, rfl⟩)))
        · exact Or.inr (Or.inl ⟨_, _, rfl, Or.inr rfl⟩)

/-- On a `NoEntryPoints` or `EntryPointConflict` exit, phase 2 has removed
the tool's environment. -/
theorem installPhase2_cleanup {a : Args} {c : Collab} {fr : Requirement}
    {reqs : List Requirement} {rep : Bool} {w : World} {tr : List Effect} {env : Env}
    (h : (∃ m, (installPhase2 a c fr reqs rep w tr env).result = .error (.noEntryPoints m)) ∨
         (∃ ns, (installPhase2 a c fr reqs rep w tr env).result =
            .error (.entryPointConflict ns))) :
    (installPhase2 a c fr reqs rep w tr env).world.environments fr.name = none := by
  rcases installPhase2_spec a c fr reqs rep w tr env with
    ⟨e, heq, hor⟩ | ⟨dir, e, heq, hor⟩ | ⟨dir, heq⟩ | ⟨dir, ns, heq⟩ |
    ⟨dir, w2, tr2, heq, h1, h2, h3⟩ | ⟨dir, eps, w2, tr2, heq, h1, h2, h3⟩
  · rw [heq] at h
    rcases hor with rfl | rfl | rfl <;> rcases h with ⟨m, h⟩ | ⟨ns, h⟩ <;> simp at h
  · rw [heq] at h
    rcases hor with rfl | rfl <;> rcases h with ⟨m, h⟩ | ⟨ns, h⟩ <;> simp at h
  · rw [heq]
    simp [World.setEnv]
  · rw [heq]
    simp [World.setEnv]
  · rw [heq] at h
    rcases h with ⟨m, h⟩ | ⟨ns, h⟩ <;> simp at h
  · rw [heq] at h
    rcases h with ⟨m, h⟩ | ⟨ns, h⟩ <;>
      rcases publishPhase_err h with h' | h' | h' <;> simp at h'

/-- A receipt write inside phase 2 happens only at the very end of the
trace, after an install effect for every entry point of the written tool. -/
theorem installPhase2_write {a : Args} {c : Collab} {fr : Requirement}
    {reqs : List Requirement} {rep : Bool} {w : World} {tr : List Effect} {env : Env}
    {n : String} {t : Tool}
    (h : .writeReceiptE n t ∈ (installPhase2 a c fr reqs rep w tr env).trace) :
    .writeReceiptE n t ∈ tr ∨
      (∃ p, (installPhase2 a c fr reqs rep w tr env).trace = p ++ [.writeReceiptE n t] ∧
        ∀ ep ∈ t.entrypoints, ∃ src, Effect.installE src ep.installPath ∈ p) := by
  rcases installPhase2_spec a c fr reqs rep w tr env with
    ⟨e, heq, hor⟩ | ⟨dir, e, heq, hor⟩ | ⟨dir, heq⟩ | ⟨dir, ns, heq⟩ |
    ⟨dir, w2, tr2, heq, h1, h2, h3⟩ | ⟨dir, eps, w2, tr2, heq, h1, h2, h3⟩
  · rw [heq] at h
    exact Or.inl h
  · rw [heq] at h
    rcases List.mem_append.mp h with h' | h'
    · exact Or.inl h'
    · simp at h'
  · rw [heq] at h
    rcases List.mem_append.mp h with h' | h'
    · rcases List.mem_append.mp h' with h'' | h''
      · exact Or.inl h''
      · simp at h''
    · simp at h'
  · rw [heq] at h
    rcases List.mem_append.mp h with h' | h'
    · rcases List.mem_append.mp h' with h'' | h''
      · exact Or.inl h''
      · simp at h''
    · simp at h'
  · rw [heq] at h
    rcases List.mem_append.mp h with h' | h'
    · rcases List.mem_append.mp h' with h'' | h''
      · exact Or.inl h''
      · simp at h''
    · obtain ⟨p, hp⟩ := h3 _ h'
      simp at hp
  · rw [heq] at h
    rcases publishPhase_write h with h' | ⟨hn, ht, p, hp, hins⟩
    · rcases List.mem_append.mp h' with h'' | h''
      · rcases List.mem_append.mp h'' with h3' | h3'
        · exact Or.inl h3'
        · simp at h3'
      · obtain ⟨p, hp⟩ := h3 _ h''
        simp at hp
    · refine Or.inr ⟨p, ?_, hins⟩
      rw [heq]
      exact hp

/-! ### Remaining plumbing lemmas -/

theorem resolveList_err {c : Collab} {interpreter : Interp} {l : List String} {e : Err}
    (h : resolveList c interpreter l = .error e) : e = .resolveFailed := by
  induction l with
  | nil => simp [resolveList] at h
  | cons s rest ih =>
    unfold resolveList at h
    split at h
    · simp at h
      exact h.symm
    · split at h
      · rename_i heq
        simp at h
        subst h
        exact ih heq
      · simp at h

theorem removeFiles_eq_removed {c : Collab} {w : World} {l : List EP} {u : Unit}
    {w2 : World} {tr2 : List Effect} (h : removeFiles c w l = (.ok u, w2, tr2)) :
    ∀ e ∈ l, e.2.2 ∉ w2.files := by
  have h1 := congrArg (fun r => r.1) h
  have h2 := congrArg (fun r => r.2.1) h
  simp only [] at h1 h2
  rw [← h2]
  exact removeFiles_removed h1

theorem World.setEnv_files (w : World) (n : String) (e : Option Env) :
    (w.setEnv n e).files = w.files := rfl

theorem World.setEnv_receipts (w : World) (n : String) (e : Option Env) :
    (w.setEnv n e).receipts = w.receipts := rfl

theorem World.setEnv_env_self (w : World) (n : String) (e : Option Env) :
    (w.setEnv n e).environments n = e := by
  simp [World.setEnv]

theorem World.setReceipt_receipt_self (w : World) (n : String) (t : Option Tool) :
    (w.setReceipt n t).receipts n = t := by
  simp [World.setReceipt]

/-- Reduction of `install` to phase 2 once resolution succeeded, the
short-circuit did not fire, and the environment build succeeded. -/
theorem install_reduce {a : Args} {c : Collab} {w : World} {interp : Interp}
    {fr : Requirement} {ws : List Requirement} {env : Env} {w1 : World} {tr1 : List Effect}
    (hi : c.findInterpreter = .ok interp)
    (hf : resolveFrom a c interp = .ok fr)
    (hw : resolveList c interp a.withSpecs = .ok ws)
    (hA : alreadyInstalled a (fr :: ws) (w.receipts fr.name)
      (findEligibleEnv a c w fr.name) = false)
    (hB : buildEnvironment c interp w fr.name (fr :: ws)
      (findEligibleEnv a c w fr.name) = (.ok env, w1, tr1)) :
    install a c w =
      installPhase2 a c fr (fr :: ws) (w.receipts fr.name).isSome w1 tr1 env := by
  simp only [install, hi, hf, hw, installWithReqs, hA, hB]
  simp

/-- Reduction of phase 2 to the conflict error exit. -/
theorem installPhase2_conflict_exit {a : Args} {c : Collab} {fr : Requirement}
    {reqs : List Requirement} {rep : Bool} {w : World} {tr : List Effect} {env : Env}
    {dist : Dist} {ds : List Dist} {dir : Path} {eps : List (String × Path)}
    (hPkg : c.getPackages env fr.name = dist :: ds)
    (hED : c.execDir = .ok dir)
    (hCD : c.createDirOk = true)
    (hEP : c.entrypointPaths env dist.name dist.version = .ok eps)
    (hTE : targetEntryPoints dir eps ≠ [])
    (hFR : (a.force || rep) = false)
    (hEX : (targetEntryPoints dir eps).filter (fun e => decide (e.2.2 ∈ w.files)) ≠ [])
    (hRE : c.removeEnvOk fr.name = true) :
    installPhase2 a c fr reqs rep w tr env =
      ⟨.error (.entryPointConflict
          (((targetEntryPoints dir eps).filter (fun e => decide (e.2.2 ∈ w.files))).map
            (fun e => (Path.fileName e.2.2).getD ""))),
       w.setEnv fr.name none,
       tr ++ [.createDirE dir, .discoverE fr.name] ++ [.removeEnvE fr.name]⟩ := by
  simp only [installPhase2, hPkg, hED, hCD, hEP, hFR, hRE, List.head?_cons]
  simp [hTE, hEX]

/-- Reduction of phase 2 to the publish phase along the overwrite branch. -/
theorem installPhase2_force_exit {a : Args} {c : Collab} {fr : Requirement}
    {reqs : List Requirement} {rep : Bool} {w : World} {tr : List Effect} {env : Env}
    {dist : Dist} {ds : List Dist} {dir : Path} {eps : List (String × Path)}
    {w2 : World} {tr2 : List Effect} {u : Unit}
    (hPkg : c.getPackages env fr.name = dist :: ds)
    (hED : c.execDir = .ok dir)
    (hCD : c.createDirOk = true)
    (hEP : c.entrypointPaths env dist.name dist.version = .ok eps)
    (hTE : targetEntryPoints dir eps ≠ [])
    (hFR : (a.force || rep) = true)
    (hRF : removeFiles c w ((targetEntryPoints dir eps).filter
        (fun e => decide (e.2.2 ∈ w.files))) = (.ok u, w2, tr2)) :
    installPhase2 a c fr reqs rep w tr env =
      publishPhase a c fr reqs (targetEntryPoints dir eps) w2
        (tr ++ [.createDirE dir, .discoverE fr.name] ++ tr2) := by
  simp only [installPhase2, hPkg, hED, hCD, hEP, hFR, hRF, List.head?_cons]
  simp [hTE]

/-- Reduction of `install` to the short-circuit exit. -/
theorem install_shortcircuit {a : Args} {c : Collab} {w : World} {interp : Interp}
    {fr : Requirement} {ws : List Requirement}
    (hi : c.findInterpreter = .ok interp)
    (hf : resolveFrom a c interp = .ok fr)
    (hw : resolveList c interp a.withSpecs = .ok ws)
    (hA : alreadyInstalled a (fr :: ws) (w.receipts fr.name)
      (findEligibleEnv a c w fr.name) = true) :
    install a c w = ⟨.ok .failure, w, []⟩ := by
  simp only [install, hi, hf, hw, installWithReqs, hA]
  simp

/-- Reduction of `install` to a failed environment build. -/
theorem install_reduce_err {a : Args} {c : Collab} {w : World} {interp : Interp}
    {fr : Requirement} {ws : List Requirement} {e : Err} {w1 : World} {tr1 : List Effect}
    (hi : c.findInterpreter = .ok interp)
    (hf : resolveFrom a c interp = .ok fr)
    (hw : resolveList c interp a.withSpecs = .ok ws)
    (hA : alreadyInstalled a (fr :: ws) (w.receipts fr.name)
      (findEligibleEnv a c w fr.name) = false)
    (hB : buildEnvironment c interp w fr.name (fr :: ws)
      (findEligibleEnv a c w fr.name) = (.error e, w1, tr1)) :
    install a c w = ⟨.error e, w1, tr1⟩ := by
  simp only [install, hi, hf, hw, installWithReqs, hA, hB]
  simp

/-! ### Claim theorems -/

/-- C6: when an explicit `--from` source is supplied and its resolved package
name differs from the requested display name, `install` fails with the
`NameConflict` error before any environment is created, modified or removed:
the world is returned unchanged and the effect trace is empty. -/
theorem c6_name_conflict (a : Args) (c : Collab) (w : World) (interp : Interp)
    (f : String) (pkg : String) (fr : Requirement)
    (hff : a.fromSpec = some f)
    (hi : c.findInterpreter = .ok interp)
    (hp : c.parsePackageName a.package = some pkg)
    (hr : c.resolveReq interp f = .ok fr)
    (hne : fr.name ≠ pkg) :
    install a c w = ⟨.error .nameConflict, w, []⟩ := by
  simp only [install, hi]
  simp only [resolveFrom, hff, hp, hr]
  rw [if_neg hne]

/-- C6 witness: requesting `black` from a source that resolves to `other`
fails with `NameConflict` and leaves the world untouched. -/
theorem c6_name_conflict_witness :
    install exArgsFrom exCollabOther exWorld0 = ⟨.error .nameConflict, exWorld0, []⟩ :=
  c6_name_conflict exArgsFrom exCollabOther exWorld0 "py" "black-src" "black"
    ⟨"other", "black-src"⟩ rfl rfl rfl rfl (by decide)

/-- C2: with an eligible existing environment, an existing receipt whose
requirement list equals the candidate list, and neither `--force` nor a
reinstall/upgrade policy, `install` terminates early: the result is the
non-error `ExitStatus.failure` (distinct from a thrown error), the world is
unchanged (no filesystem writes, receipt untouched), and the trace is
empty. -/
theorem c2_already_installed (a : Args) (c : Collab) (w : World) (interp : Interp)
    (fr : Requirement) (ws : List Requirement) (t : Tool)
    (hi : c.findInterpreter = .ok interp)
    (hf : resolveFrom a c interp = .ok fr)
    (hw : resolveList c interp a.withSpecs = .ok ws)
    (henv : (findEligibleEnv a c w fr.name).isSome = true)
    (hrec : w.receipts fr.name = some t)
    (hreq : receiptRequirements t = fr :: ws)
    (hforce : a.force = false) (hre : a.reinstall = none) (hup : a.upgrade = none) :
    install a c w = ⟨.ok .failure, w, []⟩ := by
  have hA : alreadyInstalled a (fr :: ws) (w.receipts fr.name)
      (findEligibleEnv a c w fr.name) = true := by
    simp [alreadyInstalled, henv, hrec, hreq, hforce, hre, hup]
  simp only [install, hi, hf, hw, installWithReqs, hA]
  simp

/-- C2 witness: repeating the identical `black` install over the installed
state returns the failure exit with no writes. -/
theorem c2_already_installed_witness :
    install exArgs exCollab exWorldInstalled = ⟨.ok .failure, exWorldInstalled, []⟩ :=
  c2_already_installed exArgs exCollab exWorldInstalled "py" ⟨"black", "black"⟩ [] exTool
    rfl rfl rfl (by decide) (by decide) (by decide) rfl rfl rfl

/-- C4: on the fresh-environment path (no eligible existing environment),
the candidate set is fully resolved before anything is created or removed:
a resolution failure returns the error with the world unchanged and an empty
trace, and only after successful resolution (and create and sync) does the
trace begin with the environment-creation and sync effects. -/
theorem c4_resolution_first (a : Args) (c : Collab) (w : World) (interp : Interp)
    (fr : Requirement) (ws : List Requirement)
    (hi : c.findInterpreter = .ok interp)
    (hf : resolveFrom a c interp = .ok fr)
    (hw : resolveList c interp a.withSpecs = .ok ws)
    (henv : findEligibleEnv a c w fr.name = none) :
    (c.resolveEnvironment interp (fr :: ws) = .error () →
      install a c w = ⟨.error .resolutionFailed, w, []⟩) ∧
    (∀ res env env2, c.resolveEnvironment interp (fr :: ws) = .ok res →
      c.createEnv fr.name interp = .ok env →
      c.syncEnv env res = .ok env2 →
      ∃ s, (install a c w).trace = .createEnvE fr.name :: .syncEnvE fr.name :: s) := by
  have hA : alreadyInstalled a (fr :: ws) (w.receipts fr.name)
      (findEligibleEnv a c w fr.name) = false := by
    simp [alreadyInstalled, henv]
  constructor
  · intro hres
    simp only [install, hi, hf, hw, installWithReqs, hA]
    simp only [buildEnvironment, henv, hres]
    simp
  · intro res env env2 hres hcr hsy
    have hB : buildEnvironment c interp w fr.name (fr :: ws)
        (findEligibleEnv a c w fr.name) =
        (.ok env2, w.setEnv fr.name (some env2),
          [.createEnvE fr.name, .syncEnvE fr.name]) := by
      simp only [buildEnvironment, henv, hres, hcr, hsy]
    rw [install_reduce hi hf hw hA hB]
    obtain ⟨s, hs⟩ := installPhase2_trace_extends
    exact ⟨s, hs⟩

/-- C4 witness: with an oracle whose resolver fails, a fresh install of
`black` returns the resolution error with the world untouched. -/
theorem c4_resolution_first_witness :
    install exArgs exCollabResFail exWorld0 = ⟨.error .resolutionFailed, exWorld0, []⟩ :=
  (c4_resolution_first exArgs exCollabResFail exWorld0 "py" ⟨"black", "black"⟩ []
    rfl rfl rfl rfl).1 rfl

/-- C10: if after a successful environment build or sync the primary package
is not among the environment's installed packages, `install` fails with the
`Expected at least one requirement` error, the environment is retained, no
receipt is touched, no file is touched, and no discovery, publish or receipt
effect is emitted (the trace holds only build effects). -/
theorem c10_missing_dist (a : Args) (c : Collab) (w : World) (interp : Interp)
    (fr : Requirement) (ws : List Requirement) (env : Env) (w1 : World) (tr1 : List Effect)
    (hi : c.findInterpreter = .ok interp)
    (hf : resolveFrom a c interp = .ok fr)
    (hw : resolveList c interp a.withSpecs = .ok ws)
    (hA : alreadyInstalled a (fr :: ws) (w.receipts fr.name)
      (findEligibleEnv a c w fr.name) = false)
    (hB : buildEnvironment c interp w fr.name (fr :: ws)
      (findEligibleEnv a c w fr.name) = (.ok env, w1, tr1))
    (hPkg : c.getPackages env fr.name = []) :
    install a c w = ⟨.error .noDistInstalled, w1, tr1⟩ ∧
    w1.environments fr.name = some env ∧
    w1.receipts = w.receipts ∧ w1.files = w.files ∧
    ∀ ef ∈ tr1, ef = .updateEnvE fr.name ∨ ef = .createEnvE fr.name ∨
      ef = .syncEnvE fr.name := by
  obtain ⟨hR, hF, hE, hT⟩ := buildEnvironment_ok hB
  refine ⟨?_, hE, hR, hF, hT⟩
  rw [install_reduce hi hf hw hA hB]
  simp [installPhase2, hPkg]

/-- C10 witness: a `black` install whose environment ends up without any
package fails with the missing-distribution error, keeping the freshly built
environment and only build effects in the trace. -/
theorem c10_missing_dist_witness :
    install exArgs exCollabNoDist exWorld0 =
      ⟨.error .noDistInstalled, exWorld0.setEnv "black" (some ⟨"py"⟩),
        [.createEnvE "black", .syncEnvE "black"]⟩ ∧
    (exWorld0.setEnv "black" (some ⟨"py"⟩)).environments "black" = some ⟨"py"⟩ :=
  let h := c10_missing_dist exArgs exCollabNoDist exWorld0 "py" ⟨"black", "black"⟩ []
    ⟨"py"⟩ (exWorld0.setEnv "black" (some ⟨"py"⟩))
    [.createEnvE "black", .syncEnvE "black"] rfl rfl rfl (by decide) rfl rfl
  ⟨h.1, h.2.1⟩

/-- C8: every produced entry-point target path is exactly the executable
directory joined with the source path's filename, falling back to the entry
point's name when the source path has none; and the set of target paths is
exactly the image of that function over the discovered entry points, hence a
deterministic function of those inputs. -/
theorem c8_target_paths (dir : Path) (eps : List (String × Path)) :
    (∀ e ∈ targetEntryPoints dir eps,
      e.2.2 = dir ++ [(Path.fileName e.2.1).getD e.1]) ∧
    (∀ p, (∃ e ∈ targetEntryPoints dir eps, e.2.2 = p) ↔
      ∃ x ∈ eps, p = dir ++ [(Path.fileName x.2).getD x.1]) := by
  constructor
  · intro e he
    rw [mem_targetEntryPoints] at he
    obtain ⟨x, hx, rfl⟩ := List.mem_map.mp he
    rfl
  · intro p
    constructor
    · rintro ⟨e, he, rfl⟩
      rw [mem_targetEntryPoints] at he
      obtain ⟨x, hx, rfl⟩ := List.mem_map.mp he
      exact ⟨x, hx, rfl⟩
    · rintro ⟨x, hx, rfl⟩
      refine ⟨mkTargetEntry dir x, ?_, rfl⟩
      rw [mem_targetEntryPoints]
      exact List.mem_map_of_mem _ hx

/-- C8 witness: the `black` entry point with source `env/bin/black` is
published at `bin/black`. -/
theorem c8_target_paths_witness :
    (("black", ["env", "bin", "black"], ["bin", "black"]) : EP).2.2 =
      ["bin"] ++ [(Path.fileName ["env", "bin", "black"]).getD "black"] :=
  (c8_target_paths ["bin"] [("black", ["env", "bin", "black"])]).1
    ("black", ["env", "bin", "black"], ["bin", "black"]) (by decide)

/-- C9: the candidate entry points are deduplicated and sorted by the strict
total order on `(name, source_path, target_path)`, membership is exactly the
mapped candidates, and the conflict-detection pass (the filter of targets
that already exist) preserves that order — so every processing stage follows
the same deterministic order. -/
theorem c9_deterministic_order (dir : Path) (eps : List (String × Path)) (files : List Path) :
    (targetEntryPoints dir eps).Sorted epLt ∧
    (targetEntryPoints dir eps).Nodup ∧
    (∀ x, x ∈ targetEntryPoints dir eps ↔ x ∈ eps.map (mkTargetEntry dir)) ∧
    ((targetEntryPoints dir eps).filter fun e => decide (e.2.2 ∈ files)).Sorted epLt := by
  refine ⟨sorted_targetEntryPoints dir eps,
    nodup_of_sorted_epLt (sorted_targetEntryPoints dir eps),
    fun x => mem_targetEntryPoints, ?_⟩
  exact List.Pairwise.sublist (List.filter_sublist _) (sorted_targetEntryPoints dir eps)

/-- C3: when some candidate target paths already exist on disk, the branch
taken depends solely on `force` and prior receipt existence: if either
holds, every conflicting file is removed and installation proceeds to the
publish phase; otherwise the call fails with `EntryPointConflict` naming
every conflicting filename and leaves the files on disk untouched. -/
theorem c3_entry_point_conflicts (a : Args) (c : Collab) (w : World) (interp : Interp)
    (fr : Requirement) (ws : List Requirement) (env : Env) (w1 : World) (tr1 : List Effect)
    (dist : Dist) (ds : List Dist) (dir : Path) (eps : List (String × Path))
    (hi : c.findInterpreter = .ok interp)
    (hf : resolveFrom a c interp = .ok fr)
    (hw : resolveList c interp a.withSpecs = .ok ws)
    (hA : alreadyInstalled a (fr :: ws) (w.receipts fr.name)
      (findEligibleEnv a c w fr.name) = false)
    (hB : buildEnvironment c interp w fr.name (fr :: ws)
      (findEligibleEnv a c w fr.name) = (.ok env, w1, tr1))
    (hPkg : c.getPackages env fr.name = dist :: ds)
    (hED : c.execDir = .ok dir)
    (hCD : c.createDirOk = true)
    (hEP : c.entrypointPaths env dist.name dist.version = .ok eps)
    (hTE : targetEntryPoints dir eps ≠ [])
    (hEX : (targetEntryPoints dir eps).filter (fun e => decide (e.2.2 ∈ w1.files)) ≠ []) :
    ((a.force || (w.receipts fr.name).isSome) = true →
      (∀ e ∈ (targetEntryPoints dir eps).filter (fun e => decide (e.2.2 ∈ w1.files)),
        c.removeFileOk e.2.2 = true) →
      ∃ w2 tr2,
        removeFiles c w1 ((targetEntryPoints dir eps).filter
          (fun e => decide (e.2.2 ∈ w1.files))) = (.ok (), w2, tr2) ∧
        (∀ e ∈ (targetEntryPoints dir eps).filter (fun e => decide (e.2.2 ∈ w1.files)),
          e.2.2 ∉ w2.files) ∧
        install a c w = publishPhase a c fr (fr :: ws) (targetEntryPoints dir eps) w2
          (tr1 ++ [.createDirE dir, .discoverE fr.name] ++ tr2)) ∧
    ((a.force || (w.receipts fr.name).isSome) = false →
      c.removeEnvOk fr.name = true →
      (install a c w).result = .error (.entryPointConflict
        (((targetEntryPoints dir eps).filter (fun e => decide (e.2.2 ∈ w1.files))).map
          (fun e => (Path.fileName e.2.2).getD ""))) ∧
      (install a c w).world.files = w.files) := by
  have hIR := install_reduce hi hf hw hA hB
  constructor
  · intro hFR hRem
    obtain ⟨hok, htr⟩ := removeFiles_ok (c := c) (w := w1) hRem
    rcases hRF : removeFiles c w1 ((targetEntryPoints dir eps).filter
        (fun e => decide (e.2.2 ∈ w1.files))) with ⟨res, w2, tr2⟩
    have hres : res = .ok () := by
      rw [hRF] at hok
      exact hok
    subst hres
    refine ⟨w2, tr2, rfl, removeFiles_eq_removed hRF, ?_⟩
    rw [hIR, installPhase2_force_exit hPkg hED hCD hEP hTE hFR hRF]
  · intro hFR hRE
    rw [hIR, installPhase2_conflict_exit hPkg hED hCD hEP hTE hFR hEX hRE]
    refine ⟨rfl, ?_⟩
    show (World.setEnv w1 fr.name none).files = w.files
    rw [World.setEnv_files]
    exact (buildEnvironment_ok hB).2.1

/-- C3 witness: installing `black` without `force` over a foreign
`bin/black` file (no prior receipt) fails naming `black` and leaves the file
in place. -/
theorem c3_entry_point_conflicts_witness :
    (install exArgs exCollab exWorldConflict).result =
      .error (.entryPointConflict ["black"]) ∧
    (install exArgs exCollab exWorldConflict).world.files = [["bin", "black"]] :=
  (c3_entry_point_conflicts exArgs exCollab exWorldConflict "py" ⟨"black", "black"⟩ []
    ⟨"py"⟩ (exWorldConflict.setEnv "black" (some ⟨"py"⟩))
    [.createEnvE "black", .syncEnvE "black"] ⟨"black", "1.0"⟩ [] ["bin"]
    [("black", ["env", "bin", "black"])]
    rfl rfl rfl (by decide) rfl rfl rfl rfl rfl (by decide) (by decide)).2 (by decide) rfl

/-- C7: the candidate set is `primary :: auxiliaries` and its comparison
with the receipt is structural list equality, so when the receipt's
requirement list differs from the candidate list (changed auxiliaries) the
second call does not short-circuit: it syncs the existing environment (the
trace starts with the update effect) and, on success, writes a receipt whose
requirement list is exactly the new candidate list. -/
theorem c7_requirement_set (a : Args) (c : Collab) (w : World) (interp : Interp)
    (fr : Requirement) (ws : List Requirement) (t : Tool) (env env2 : Env)
    (dist : Dist) (ds : List Dist) (dir : Path) (eps : List (String × Path))
    (hi : c.findInterpreter = .ok interp)
    (hf : resolveFrom a c interp = .ok fr)
    (hw : resolveList c interp a.withSpecs = .ok ws)
    (hrec : w.receipts fr.name = some t)
    (henv : findEligibleEnv a c w fr.name = some env)
    (hne : receiptRequirements t ≠ fr :: ws)
    (hU : c.updateEnv env (fr :: ws) = .ok env2)
    (hPkg : c.getPackages env2 fr.name = dist :: ds)
    (hED : c.execDir = .ok dir)
    (hCD : c.createDirOk = true)
    (hEP : c.entrypointPaths env2 dist.name dist.version = .ok eps)
    (hTE : targetEntryPoints dir eps ≠ [])
    (hRem : ∀ e ∈ (targetEntryPoints dir eps).filter
        (fun e => decide (e.2.2 ∈ w.files)), c.removeFileOk e.2.2 = true)
    (hInst : ∀ e ∈ targetEntryPoints dir eps, c.installEpOk e.2.1 e.2.2 = true)
    (hInit : c.initOk = true) (hAdd : c.addReceiptOk = true) :
    (install a c w).result = .ok .success ∧
    (∃ s, (install a c w).trace = .updateEnvE fr.name :: s) ∧
    (install a c w).world.receipts fr.name =
      some (mkTool a (fr :: ws) (targetEntryPoints dir eps)) ∧
    (mkTool a (fr :: ws) (targetEntryPoints dir eps)).requirements = fr :: ws := by
  have hne' : fr :: ws ≠ receiptRequirements t := fun h => hne h.symm
  have hA : alreadyInstalled a (fr :: ws) (w.receipts fr.name)
      (findEligibleEnv a c w fr.name) = false := by
    simp [alreadyInstalled, hrec, hne']
  have hB : buildEnvironment c interp w fr.name (fr :: ws)
      (findEligibleEnv a c w fr.name) =
      (.ok env2, w.setEnv fr.name (some env2), [.updateEnvE fr.name]) := by
    simp only [buildEnvironment, henv, hU]
  have hIR := install_reduce hi hf hw hA hB
  have hFR : (a.force || (w.receipts fr.name).isSome) = true := by simp [hrec]
  obtain ⟨hok, htr⟩ := removeFiles_ok (c := c) (w := w.setEnv fr.name (some env2)) hRem
  have hok' : (removeFiles c (w.setEnv fr.name (some env2))
      ((targetEntryPoints dir eps).filter
        (fun e => decide (e.2.2 ∈ (w.setEnv fr.name (some env2)).files)))).1 = .ok () := hok
  rcases hRF : removeFiles c (w.setEnv fr.name (some env2))
      ((targetEntryPoints dir eps).filter
        (fun e => decide (e.2.2 ∈ (w.setEnv fr.name (some env2)).files))) with ⟨res, w2, tr2⟩
  have hres : res = .ok () := by
    rw [hRF] at hok'
    exact hok'
  subst hres
  have hFE := @installPhase2_force_exit a c fr (fr :: ws) ((w.receipts fr.name).isSome)
    (w.setEnv fr.name (some env2)) [.updateEnvE fr.name] env2 dist ds dir eps w2 tr2 ()
    hPkg hED hCD hEP hTE hFR hRF
  rcases hIF : installFiles c w2 (targetEntryPoints dir eps) with ⟨res3, w3, tr3⟩
  have hres3 : res3 = .ok () := by
    have h3 := installFiles_ok (c := c) (w := w2) hInst
    rw [hIF] at h3
    exact h3
  subst hres3
  have hPub := @publishPhase_ok a c fr (fr :: ws) (targetEntryPoints dir eps) w2
    ([.updateEnvE fr.name] ++ [.createDirE dir, .discoverE fr.name] ++ tr2) w3 tr3 ()
    hIF hInit hAdd
  rw [hIR, hFE, hPub]
  refine ⟨rfl, ⟨_, rfl⟩, ?_, rfl⟩
  exact World.setReceipt_receipt_self w3 fr.name _

/-- C7 witness: re-installing `black` after dropping the auxiliary `plug`
from the receipt syncs the environment and rewrites the receipt to exactly
the new single-requirement candidate list. -/
theorem c7_requirement_set_witness :
    (install exArgs exCollab exWorldOld).result = .ok .success ∧
    (install exArgs exCollab exWorldOld).world.receipts "black" = some exTool :=
  let h := c7_requirement_set exArgs exCollab exWorldOld "py" ⟨"black", "black"⟩ []
    exToolOld ⟨"py"⟩ ⟨"py"⟩ ⟨"black", "1.0"⟩ [] ["bin"] [("black", ["env", "bin", "black"])]
    rfl rfl rfl rfl rfl (by decide) rfl rfl rfl rfl rfl (by decide) (by decide) (by decide)
    rfl rfl
  ⟨h.1, h.2.2.1⟩

/-- C5: a receipt write appears in the trace only as its final effect, after
an install effect for every entry point recorded in the written receipt — no
execution path persists a receipt before all entry points are published. -/
theorem c5_receipt_is_commit (a : Args) (c : Collab) (w : World) (n : String) (t : Tool)
    (h : .writeReceiptE n t ∈ (install a c w).trace) :
    ∃ p q, (install a c w).trace = p ++ .writeReceiptE n t :: q ∧
      ∀ ep ∈ t.entrypoints, ∃ src, Effect.installE src ep.installPath ∈ p := by
  cases hi : c.findInterpreter with
  | error e =>
    simp only [install, hi] at h
    simp at h
  | ok interp =>
  cases hf : resolveFrom a c interp with
  | error e =>
    simp only [install, hi, hf] at h
    simp at h
  | ok fr =>
  cases hw : resolveList c interp a.withSpecs with
  | error e =>
    simp only [install, hi, hf, hw] at h
    simp at h
  | ok ws =>
  cases hA : alreadyInstalled a (fr :: ws) (w.receipts fr.name)
      (findEligibleEnv a c w fr.name) with
  | true =>
    rw [install_shortcircuit hi hf hw hA] at h
    simp at h
  | false =>
  rcases hB : buildEnvironment c interp w fr.name (fr :: ws)
      (findEligibleEnv a c w fr.name) with ⟨res, w1, tr1⟩
  cases res with
  | error e =>
    rw [install_reduce_err hi hf hw hA hB] at h
    obtain ⟨-, -, -, hT⟩ := buildEnvironment_err hB
    rcases hT _ h with h2 | h2 | h2 <;> simp at h2
  | ok env =>
    have hIR := install_reduce hi hf hw hA hB
    rw [hIR] at h ⊢
    rcases installPhase2_write h with h' | ⟨p, hp, hins⟩
    · obtain ⟨-, -, -, hT⟩ := buildEnvironment_ok hB
      rcases hT _ h' with h2 | h2 | h2 <;> simp at h2
    · exact ⟨p, [], hp, hins⟩

/-- C5 witness: in the successful fresh `black` install, the receipt write
is in the trace, so it is the final effect and is preceded by the install
effect of its single entry point. -/
theorem c5_receipt_is_commit_witness :
    ∃ p q, (install exArgs exCollab exWorld0).trace =
      p ++ .writeReceiptE "black" exTool :: q ∧
      ∀ ep ∈ exTool.entrypoints, ∃ src, Effect.installE src ep.installPath ∈ p :=
  c5_receipt_is_commit exArgs exCollab exWorld0 "black" exTool (by decide)

/-- C1 counterexample: a pre-existing environment for `black` (update path:
the trace starts with the update effect, not a create effect) is deleted —
not retained — when entry-point discovery yields zero entry points, refuting
the claim that a pre-existing environment survives a `NoEntryPoints`
failure. -/
theorem c1_counterexample :
    exWorldPre.environments "black" = some ⟨"py"⟩ ∧
    findEligibleEnv exArgs exCollabNoEps exWorldPre "black" = some ⟨"py"⟩ ∧
    (install exArgs exCollabNoEps exWorldPre).result = .error (.noEntryPoints "black") ∧
    (install exArgs exCollabNoEps exWorldPre).trace =
      [.updateEnvE "black", .createDirE ["bin"], .discoverE "black", .removeEnvE "black"] ∧
    (install exArgs exCollabNoEps exWorldPre).world.environments "black" = none :=
  ⟨rfl, rfl, rfl, rfl, rfl⟩

/-- C1 (amended): whenever `install` fails with `NoEntryPoints` or
`EntryPointConflict`, the tool's environment has been deleted before the
error is returned — unconditionally, whether the environment was newly
created in this call or pre-existed and was merely updated. -/
theorem c1_cleanup_unconditional (a : Args) (c : Collab) (w : World) (interp : Interp)
    (fr : Requirement)
    (hi : c.findInterpreter = .ok interp)
    (hf : resolveFrom a c interp = .ok fr)
    (h : (∃ m, (install a c w).result = .error (.noEntryPoints m)) ∨
         (∃ ns, (install a c w).result = .error (.entryPointConflict ns))) :
    (install a c w).world.environments fr.name = none := by
  cases hw : resolveList c interp a.withSpecs with
  | error e =>
    have he := resolveList_err hw
    subst he
    simp only [install, hi, hf, hw] at h
    rcases h with ⟨m, h⟩ | ⟨ns, h⟩ <;> simp at h
  | ok ws =>
  cases hA : alreadyInstalled a (fr :: ws) (w.receipts fr.name)
      (findEligibleEnv a c w fr.name) with
  | true =>
    rw [install_shortcircuit hi hf hw hA] at h
    rcases h with ⟨m, h⟩ | ⟨ns, h⟩ <;> simp at h
  | false =>
  rcases hB : buildEnvironment c interp w fr.name (fr :: ws)
      (findEligibleEnv a c w fr.name) with ⟨res, w1, tr1⟩
  cases res with
  | error e =>
    rw [install_reduce_err hi hf hw hA hB] at h
    obtain ⟨hor, -, -, -⟩ := buildEnvironment_err hB
    rcases h with ⟨m, h⟩ | ⟨ns, h⟩ <;> rcases hor with rfl | rfl | rfl | rfl <;> simp at h
  | ok env =>
    have hIR := install_reduce hi hf hw hA hB
    rw [hIR] at h ⊢
    exact installPhase2_cleanup h

/-- C1 (amended) witness: in the counterexample scenario the failing call
has indeed deleted the pre-existing environment. -/
theorem c1_cleanup_unconditional_witness :
    (install exArgs exCollabNoEps exWorldPre).world.environments "black" = none :=
  c1_cleanup_unconditional exArgs exCollabNoEps exWorldPre "py" ⟨"black", "black"⟩
    rfl rfl (Or.inl ⟨"black", rfl⟩)

end UvTool
